import Mathlib

/-!
# Verification of the modpmv timeline/render core

Shallow embedding of the core of the `modpmv` repository:

* `src/modpmv/assets.py` — fuzzy asset search (`_find_in_folders`,
  `find_audio_for_sample`, `find_video_for_sample`);
* `src/modpmv/audio_renderer.py` — `render_audio_from_module_data`,
  `apply_audio_plugins`;
* `src/modpmv/video_renderer.py` — the row walk of
  `render_video_from_module_data` (timeline construction, per-channel
  video resolution, visual plugin chain);
* `src/modpmv/mod_parser.py` — the row normalization stage of the parser.

Modelling conventions:

* A pydub `AudioSegment` is a `List Int` at one sample per millisecond:
  `len(seg)` is `List.length`, `AudioSegment.silent(d)` is
  `List.replicate d 0`, `seg[:n]` is `List.take n`, `seg * k` repeats,
  `append(..., crossfade=0)` is `(· ++ ·)`, and `overlay` mixes pointwise
  keeping the length of the left operand (pydub semantics).
* The filesystem is a value of type `FS`: `os.path.isdir`, `os.listdir`,
  `os.path.exists` and audio loading become fields of the structure.
* Python floats in the video walk become `ℚ`: the walk only ever adds and
  compares the very values it produced, so the exact-arithmetic model
  mirrors the source expressions one for one.
* Python strings are Lean `String`s; `str.lower()`/`str.upper()`/
  `str.startswith` are `pyLower`/`pyUpper`/`pyStartsWith` (structural
  recursion over the character list), and `os.path.splitext` is modelled
  including its leading-dot rule.
-/

/-- Python `str.lower()` (ASCII), computed on the character list so that
it reduces structurally. -/
def pyLower (s : String) : String :=
  (s.toList.map Char.toLower).asString

/-- Python `str.upper()` (ASCII), computed on the character list. -/
def pyUpper (s : String) : String :=
  (s.toList.map Char.toUpper).asString

/-- Python `s.startswith(pre)`, computed on the character lists. -/
def pyStartsWith (s pre : String) : Bool :=
  pre.toList.isPrefixOf s.toList

/-- Python `needle in haystack` on lists of characters: some suffix of the
haystack has the needle as a prefix. -/
def containsSub (needle : List Char) : List Char → Bool
  | [] => needle.isEmpty
  | c :: t => needle.isPrefixOf (c :: t) || containsSub needle t

/-- Python `needle in haystack` on strings. -/
def pyIn (needle hay : String) : Bool :=
  containsSub needle.toList hay.toList

/-- `os.path.splitext` on a bare file name (no directory part), on lists of
characters: split at the last dot, except that a name whose every character
before that dot is itself a dot (e.g. `".bashrc"`) has no extension. -/
def splitextList (cs : List Char) : List Char × List Char :=
  let tl := cs.reverse.takeWhile (fun c => c ≠ '.')
  if tl.length = cs.length then (cs, [])
  else
    let cut := cs.length - tl.length - 1
    if (cs.take cut).all (fun c => c = '.') then (cs, [])
    else (cs.take cut, cs.drop cut)

/-- `os.path.splitext` on strings. -/
def splitext (s : String) : String × String :=
  ((splitextList s.toList).1.asString, (splitextList s.toList).2.asString)

/-- `os.path.join(folder, fname)` for a relative entry name. -/
def pyJoin (folder fname : String) : String :=
  if folder = "" then fname
  else if folder.toList.getLast? = some '/' then folder ++ fname
  else folder ++ "/" ++ fname

/-- Python `tok.split(":", 1)[1]`: everything after the first colon
(empty when there is no colon; callers guard on a `"SAMPLE:"` prefix). -/
def afterFirstColon (s : String) : String :=
  ((s.toList.dropWhile (fun c => c ≠ ':')).drop 1).asString

/-- The filesystem and media-decoding environment the renderers run in. -/
structure FS where
  isdir : String → Bool
  listdir : String → List String
  pathExists : String → Bool
  audioData : String → List Int

/-- `AUDIO_EXTS` from `src/modpmv/assets.py`. -/
def AUDIO_EXTS : List String := [".wav", ".mp3", ".ogg", ".flac", ".m4a"]

/-- `VIDEO_EXTS` from `src/modpmv/assets.py`. -/
def VIDEO_EXTS : List String := [".mp4", ".mov", ".webm", ".mkv", ".avi"]

/-- The per-entry test of `_find_in_folders`: lowercase the entry name,
split off the extension, require the extension in `exts` and the stem to
equal / start with / contain the (already lowercased) base name. -/
def matchEntry (base : String) (exts : List String) (fname : String) : Bool :=
  let lc := pyLower fname
  let nm := (splitext lc).1
  let ext := (splitext lc).2
  exts.contains ext && (nm == base || pyStartsWith nm base || pyIn base nm)

/-- The folder loop of `_find_in_folders`: skip non-directories, return the
first matching entry of the first folder that has one, in listing order. -/
def findLoop (fs : FS) (base : String) (exts : List String) :
    List String → Option String
  | [] => none
  | folder :: rest =>
    if fs.isdir folder then
      match (fs.listdir folder).find? (matchEntry base exts) with
      | some fname => some (pyJoin folder fname)
      | none => findLoop fs base exts rest
    else findLoop fs base exts rest

/-- `_find_in_folders` from `src/modpmv/assets.py` (lines 11–24): empty
names are rejected up front, otherwise scan the folders with `findLoop`. -/
def findInFolders (fs : FS) (name : String) (folders : List String)
    (exts : List String) : Option String :=
  if name = "" then none
  else findLoop fs (pyLower name) exts folders

/-- `find_audio_for_sample` from `src/modpmv/assets.py`. -/
def find_audio_for_sample (fs : FS) (name : String)
    (folders : List String) : Option String :=
  findInFolders fs name folders AUDIO_EXTS

/-- `find_video_for_sample` from `src/modpmv/assets.py`. -/
def find_video_for_sample (fs : FS) (name : String)
    (folders : List String) : Option String :=
  findInFolders fs name folders VIDEO_EXTS

/-!
## Module data

The dict shape produced by `mod_parser.parse` and consumed by both
renderers.  The `samples` mapping is an association list
`name ↦ optional explicit file` (the `"file"` field of a sample
declaration; `none` stands for Python `None` or a missing key).  The
`order` field is `Option` so that an absent key and a present-but-empty
list stay distinguishable — both renderers read it with
`module_data.get("order", list(range(len(patterns))))`.
-/

structure ModuleData where
  title : String
  samples : List (String × Option String)
  patterns : List (List (List String))
  order : Option (List Int)
  channels : Nat
deriving DecidableEq

/-- Python `samples.get(name)` on the association list. -/
def lookupSample : List (String × Option String) → String → Option (Option String)
  | [], _ => none
  | (k, v) :: rest, name => if k = name then some v else lookupSample rest name

/-- The effective play order:
`order = module_data.get("order", list(range(len(patterns))))` — the
default applies only when the key is absent. -/
def effOrder (md : ModuleData) : List Int :=
  md.order.getD ((List.range md.patterns.length).map Int.ofNat)

/-- The pattern picked for one order entry; an out-of-range index is
skipped (`if idx < 0 or idx >= len(patterns): continue`), modelled as
contributing no rows. -/
def pickPattern (patterns : List (List (List String))) (idx : Int) :
    List (List String) :=
  if h : 0 ≤ idx ∧ idx.toNat < patterns.length then patterns.get ⟨idx.toNat, h.2⟩
  else []

/-- The flat list of rows visited by the audio render walk, in visit
order. -/
def walkedRows (md : ModuleData) : List (List String) :=
  (effOrder md).flatMap (pickPattern md.patterns)

/-!
## Audio renderer (`src/modpmv/audio_renderer.py`)
-/

/-- `AudioSegment.silent(duration=d)`. -/
def silent (d : Nat) : List Int := List.replicate d 0

/-- pydub `overlay`: pointwise mix, result keeps the length of the left
operand (a longer right operand is cut, a shorter one leaves the tail of
the left operand unchanged). -/
def overlay (a b : List Int) : List Int :=
  List.zipWith (· + ·) a b ++ a.drop b.length

/-- pydub `seg * k`: `k` concatenated copies. -/
def pyRepeat (seg : List Int) : Nat → List Int
  | 0 => []
  | n + 1 => seg ++ pyRepeat seg n

/-- Lines 46–48 of `audio_renderer.py`: fit a loaded segment to the row
duration — truncate if longer; if shorter but non-empty, tile whole
repeats plus a truncated final repeat
(`seg * (row_ms // len(seg)) + seg[:row_ms % len(seg)]`); a zero-length
segment passes through unchanged. -/
def normalizeSeg (seg : List Int) (rowMs : Nat) : List Int :=
  if rowMs < seg.length then seg.take rowMs
  else if 0 < seg.length ∧ seg.length < rowMs then
    pyRepeat seg (rowMs / seg.length) ++ seg.take (rowMs % seg.length)
  else seg

/-- Lines 40–44 of `audio_renderer.py`: the audio-path resolution of a
sample name.  `file_path = sdecl.get("file") if sdecl else None`; the
fuzzy folder search runs only when that value is falsy (`None` or the
empty string); the final guard is
`if file_path and os.path.exists(file_path)`. -/
def audioResolve (fs : FS) (samples : List (String × Option String))
    (folders : List String) (name : String) : Option String :=
  let fp0 : Option String := (lookupSample samples name).getD none
  let fp : Option String :=
    match fp0 with
    | none => find_audio_for_sample fs name folders
    | some p => if p = "" then find_audio_for_sample fs name folders else some p
  match fp with
  | none => none
  | some p => if p = "" then none else if fs.pathExists p then some p else none

/-- One channel token's contribution (lines 37–53): a `SAMPLE:` token that
resolves is loaded and fitted with `normalizeSeg`; everything else —
`REST`, malformed tokens, unresolved or missing files — becomes silence of
the row duration. -/
def channelSegment (fs : FS) (samples : List (String × Option String))
    (folders : List String) (rowMs : Nat) (tok : String) : List Int :=
  if pyStartsWith (pyUpper tok) "SAMPLE:" then
    match audioResolve fs samples folders (afterFirstColon tok) with
    | some p => normalizeSeg (fs.audioData p) rowMs
    | none => silent rowMs
  else silent rowMs

/-- Lines 58–61: the defensive re-clamp of the mixed row segment to
exactly the row duration (pad with trailing silence, or truncate). -/
def clampTo (rowMs : Nat) (l : List Int) : List Int :=
  if l.length < rowMs then l ++ List.replicate (rowMs - l.length) 0
  else if rowMs < l.length then l.take rowMs
  else l

/-- Lines 36–64: one row's mixed segment.  Tokens beyond the channel
count are dropped (`row[:channels]`); an empty token list appends plain
silence, otherwise the per-channel segments are overlay-mixed onto the
first one and re-clamped. -/
def rowSegment (fs : FS) (samples : List (String × Option String))
    (folders : List String) (channels rowMs : Nat) (row : List String) :
    List Int :=
  match (row.take channels).map (channelSegment fs samples folders rowMs) with
  | [] => silent rowMs
  | m :: rest => clampTo rowMs (rest.foldl overlay m)

/-- `render_audio_from_module_data` (lines 24–65): walk the effective
order, skip out-of-range pattern indices, and append every visited row's
mixed segment with a hard cut. -/
def render_audio_from_module_data (fs : FS) (md : ModuleData)
    (folders : List String) (rowMs : Nat) : List Int :=
  ((walkedRows md).map
    (rowSegment fs md.samples folders md.channels rowMs)).flatten

/-- `apply_audio_plugins` (lines 67–74): fold the plugin list over the
segment; a plugin is a possibly-failing function (`none` models a raised
exception), and a failing invocation leaves the segment unchanged. -/
def apply_audio_plugins (plugins : List (List Int → Option (List Int)))
    (seg : List Int) : List Int :=
  plugins.foldl (fun s p => (p s).getD s) seg

/-!
## Video renderer row walk (`src/modpmv/video_renderer.py`, lines 137–230)

The walk that matters for the timeline contract: pattern indices come from
the same effective order as the audio walk, the time cursor `t` starts at
`0.0`, each visited row emits a timeline entry
`{start: t, duration: min(row_seconds, total - t), pattern_index,
row_index}` and advances `t` by that duration; the inner loop stops a row
before it would start at or past `total`, and the outer loop stops after
any pattern that reaches `total`.
-/

structure Slice where
  start : ℚ
  duration : ℚ
  pattern_index : Int
  row_index : Nat
deriving DecidableEq

/-- The inner `for row_idx, row in enumerate(pattern)` loop: returns the
emitted slices and the final cursor. `ridx` is the enumeration counter. -/
def walkPattern (rowSeconds total : ℚ) (pidx : Int) :
    List (List String) → ℚ → Nat → List Slice × ℚ
  | [], t, _ => ([], t)
  | _ :: rs, t, ridx =>
    if total ≤ t then ([], t)
    else
      let d := min rowSeconds (total - t)
      let w := walkPattern rowSeconds total pidx rs (t + d) (ridx + 1)
      (⟨t, d, pidx, ridx⟩ :: w.1, w.2)

/-- The outer `for patt_idx in order` loop: skipped indices bypass the
end-of-pattern `if t >= total: break` check (Python `continue`). -/
def walkOrder (rowSeconds total : ℚ)
    (patterns : List (List (List String))) :
    List Int → ℚ → List Slice × ℚ
  | [], t => ([], t)
  | idx :: rest, t =>
    if h : 0 ≤ idx ∧ idx.toNat < patterns.length then
      let w := walkPattern rowSeconds total idx (patterns.get ⟨idx.toNat, h.2⟩) t 0
      if total ≤ w.2 then w
      else
        let w2 := walkOrder rowSeconds total patterns rest w.2
        (w.1 ++ w2.1, w2.2)
    else walkOrder rowSeconds total patterns rest t

/-- The timeline returned by `render_video_from_module_data`: the slices
of the full walk from cursor `0`, where `total` is the duration of the
already-rendered audio track. -/
def videoTimeline (md : ModuleData) (total rowSeconds : ℚ) : List Slice :=
  (walkOrder rowSeconds total md.patterns (effOrder md) 0).1

/-- Lines 152–157 of `video_renderer.py`: per-channel video resolution.
The video path never consults the module's sample table — it calls
`find_video_for_sample` directly and uses the result only when it is a
truthy path that exists on disk. -/
def videoChannelResolve (fs : FS) (folders : List String) (name : String) :
    Option String :=
  match find_video_for_sample fs name folders with
  | none => none
  | some vf => if vf = "" then none else if fs.pathExists vf then some vf else none

/-- A visual plugin (lines 197–207): either the `apply`-style transform
(`none` models a raised exception) or the `render`-style generator whose
per-slice result is `none` for an exception, `some none` for a falsy
candidate (composite kept), or `some (some c)` for a replacement clip. -/
inductive VisualPlugin (C : Type) where
  | applyStyle (f : C → Option C)
  | renderStyle (r : Option (Option C))

/-- One plugin invocation of the visual chain: a raised exception or a
falsy candidate keeps the previous composite. -/
def runVisualPlugin {C : Type} (comp : C) : VisualPlugin C → C
  | .applyStyle f => (f comp).getD comp
  | .renderStyle none => comp
  | .renderStyle (some none) => comp
  | .renderStyle (some (some c)) => c

/-- The visual plugin chain of one slice, in list order. -/
def runVisualPlugins {C : Type} (plugins : List (VisualPlugin C)) (comp : C) : C :=
  plugins.foldl runVisualPlugin comp

/-!
## Parser row normalization (`src/modpmv/mod_parser.py`)

Both parse paths normalize every raw row to exactly `channels` tokens:
lines 62–68 (`_parse_text_mod`, with `channels = 32`) and lines 121–128
(binary path, with the adapter's clamped channel count) run the same
pad-with-REST / truncate step.
-/

/-- One row of the normalization loop:
`if len(r) < channels: r += ["REST"] * (channels - len(r)) else:
r = r[:channels]`. -/
def normRow (channels : Nat) (row : List String) : List String :=
  if row.length < channels then
    row ++ List.replicate (channels - row.length) "REST"
  else row.take channels

/-- The whole normalization stage over the raw patterns. -/
def normPatterns (channels : Nat) (patts : List (List (List String))) :
    List (List (List String)) :=
  patts.map (fun p => p.map (normRow channels))

/-!
## Concrete environments

Small closed filesystems and modules used to evaluate the definitions on
the spec's concrete scenarios.
-/

/-- An empty filesystem: no directories, no files, nothing loads. -/
def fs0 : FS := ⟨fun _ => false, fun _ => [], fun _ => false, fun _ => []⟩

/-- A filesystem with one video folder `vids` holding `kick_loop.mp4`, and
an explicit audio file `explicit/kick.wav` that exists on disk. -/
def fs1 : FS :=
  ⟨fun f => f = "vids",
   fun f => if f = "vids" then ["kick_loop.mp4"] else [],
   fun p => p = "explicit/kick.wav" || p = "vids/kick_loop.mp4",
   fun _ => []⟩

/-- A filesystem with one audio folder `aud` holding `kick.wav`; the path
`missing/kick.wav` does not exist. -/
def fs2 : FS :=
  ⟨fun f => f = "aud",
   fun f => if f = "aud" then ["kick.wav"] else [],
   fun p => p = "aud/kick.wav",
   fun _ => []⟩

/-- The spec's concrete scenario module: `channels = 2`, pattern 0 is
`[["SAMPLE:kick","REST"]]`, pattern 1 is `[["REST","SAMPLE:snare"]]`,
`order = [0, 1, 0]`. -/
def mdC : ModuleData :=
  { title := "t", samples := [],
    patterns := [[["SAMPLE:kick", "REST"]], [["REST", "SAMPLE:snare"]]],
    order := some [0, 1, 0], channels := 2 }

/-- Like `mdC` but with the order key absent. -/
def mdD : ModuleData :=
  { title := "t", samples := [],
    patterns := [[["SAMPLE:kick", "REST"]], [["REST", "SAMPLE:snare"]]],
    order := none, channels := 2 }

/-- A module with one non-empty pattern but a present-and-empty order. -/
def mdE : ModuleData :=
  { title := "t", samples := [], patterns := [[["SAMPLE:a", "REST"]]],
    order := some [], channels := 2 }

/-!
## Helper lemmas
-/

theorem overlay_length (a b : List Int) : (overlay a b).length = a.length := by
  simp only [overlay, List.length_append, List.length_zipWith, List.length_drop]
  omega

theorem clampTo_length (rowMs : Nat) (l : List Int) :
    (clampTo rowMs l).length = rowMs := by
  unfold clampTo
  split
  · simp only [List.length_append, List.length_replicate]; omega
  · split
    · simp only [List.length_take]; omega
    · omega

theorem rowSegment_length (fs : FS) (samples : List (String × Option String))
    (folders : List String) (channels rowMs : Nat) (row : List String) :
    (rowSegment fs samples folders channels rowMs row).length = rowMs := by
  unfold rowSegment
  split
  · simp [silent]
  · exact clampTo_length rowMs _

theorem render_audio_length (fs : FS) (md : ModuleData)
    (folders : List String) (rowMs : Nat) :
    (render_audio_from_module_data fs md folders rowMs).length =
      (walkedRows md).length * rowMs := by
  unfold render_audio_from_module_data
  induction walkedRows md with
  | nil => simp
  | cons r rs ih =>
    simp only [List.map_cons, List.flatten_cons, List.length_append, ih,
      rowSegment_length, List.length_cons]
    ring

theorem pyRepeat_length (seg : List Int) (n : Nat) :
    (pyRepeat seg n).length = n * seg.length := by
  induction n with
  | zero => simp [pyRepeat]
  | succ k ih =>
    simp only [pyRepeat, List.length_append, ih]
    ring

/-!
## Claim theorems
-/

/-- C10: every walked row contributes exactly `row_duration_ms` of audio —
regardless of short rows, malformed tokens or zero-length loads — because
the post-mix re-clamp forces each row's mixed segment to the row duration;
the output length is (number of rows walked) × `row_duration_ms`. -/
theorem C10_audio_length_invariant (fs : FS) (md : ModuleData)
    (folders : List String) (rowMs : Nat) :
    (render_audio_from_module_data fs md folders rowMs).length =
      (walkedRows md).length * rowMs :=
  render_audio_length fs md folders rowMs

/-- C6: a loaded audio segment longer than the row duration is truncated
to it; a positive-length shorter one is tiled — whole repeats plus a
truncated final repeat, plain concatenation — to exactly the row duration;
in particular a 100 ms clip fitted to a 250 ms row becomes
`seg ++ seg ++ seg.take 50` (100+100+50 ms). -/
theorem C6_truncate_and_tile (seg : List Int) (rowMs : Nat) :
    (rowMs < seg.length →
      normalizeSeg seg rowMs = seg.take rowMs ∧
      (normalizeSeg seg rowMs).length = rowMs) ∧
    (0 < seg.length → seg.length < rowMs →
      normalizeSeg seg rowMs =
        pyRepeat seg (rowMs / seg.length) ++ seg.take (rowMs % seg.length) ∧
      (normalizeSeg seg rowMs).length = rowMs) ∧
    (seg.length = 100 → normalizeSeg seg 250 = seg ++ seg ++ seg.take 50) := by
  refine ⟨fun hlong => ?_, fun hpos hshort => ?_, fun h100 => ?_⟩
  · rw [normalizeSeg, if_pos hlong]
    exact ⟨rfl, by simp only [List.length_take]; omega⟩
  · have hcond : ¬ rowMs < seg.length := by omega
    rw [normalizeSeg, if_neg hcond, if_pos ⟨hpos, hshort⟩]
    refine ⟨rfl, ?_⟩
    simp only [List.length_append, pyRepeat_length, List.length_take]
    have hmod : rowMs % seg.length < seg.length := Nat.mod_lt _ hpos
    rw [Nat.min_eq_left (Nat.le_of_lt hmod), Nat.mul_comm]
    exact Nat.div_add_mod rowMs seg.length
  · rw [normalizeSeg, h100]
    norm_num
    simp [pyRepeat, List.append_assoc]

/-- C6 witness: a 300 ms clip fitted to a 250 ms row is truncated; a
100 ms clip fitted to a 250 ms row is tiled as 100+100+50 ms. -/
theorem C6_truncate_and_tile_witness :
    (normalizeSeg (List.replicate 300 1) 250 = (List.replicate 300 1).take 250 ∧
      (normalizeSeg (List.replicate 300 1) 250).length = 250) ∧
    (normalizeSeg (List.replicate 100 1) 250 =
        pyRepeat (List.replicate 100 1) 2 ++ (List.replicate 100 1).take 50 ∧
      (normalizeSeg (List.replicate 100 1) 250).length = 250) ∧
    normalizeSeg (List.replicate 100 1) 250 =
      List.replicate 100 1 ++ List.replicate 100 1 ++ (List.replicate 100 1).take 50 := by
  refine ⟨(C6_truncate_and_tile (List.replicate 300 1) 250).1 (by norm_num), ?_, ?_⟩
  · have h := (C6_truncate_and_tile (List.replicate 100 1) 250).2.1 (by norm_num) (by norm_num)
    simpa using h
  · exact (C6_truncate_and_tile (List.replicate 100 1) 250).2.2 (by norm_num)

/-- C7: after the parse-time normalization stage, every row of every
pattern has exactly `channels` tokens — short rows are right-padded with
`REST`, long rows are truncated; concretely `["SAMPLE:x"]` with
`channels = 4` normalizes to `["SAMPLE:x","REST","REST","REST"]`. -/
theorem C7_row_normalization (channels : Nat)
    (patts : List (List (List String))) :
    (∀ p ∈ normPatterns channels patts, ∀ r ∈ p, r.length = channels) ∧
    normRow 4 ["SAMPLE:x"] = ["SAMPLE:x", "REST", "REST", "REST"] := by
  constructor
  · intro p hp r hr
    simp only [normPatterns, List.mem_map] at hp
    obtain ⟨p0, _, rfl⟩ := hp
    simp only [List.mem_map] at hr
    obtain ⟨r0, _, rfl⟩ := hr
    unfold normRow
    split
    · simp only [List.length_append, List.length_replicate]; omega
    · simp only [List.length_take]; omega
  · decide

/-- C7 witness: the concrete pattern `[[["SAMPLE:x"]]]` with
`channels = 4` normalizes to a row of exactly 4 tokens. -/
theorem C7_row_normalization_witness :
    (["SAMPLE:x", "REST", "REST", "REST"] : List String).length = 4 ∧
    normRow 4 ["SAMPLE:x"] = ["SAMPLE:x", "REST", "REST", "REST"] :=
  ⟨(C7_row_normalization 4 [[["SAMPLE:x"]]]).1
      [["SAMPLE:x", "REST", "REST", "REST"]] (by decide)
      ["SAMPLE:x", "REST", "REST", "REST"] (by decide),
   (C7_row_normalization 4 [[["SAMPLE:x"]]]).2⟩

/-- C9: a failing plugin invocation is caught at that invocation and the
chain continues with the pre-plugin value, still applying the remaining
plugins — for the audio chain (`apply_audio_plugins`) and the per-slice
visual chain alike; no failure aborts the fold. -/
theorem C9_plugin_failure_continues
    (ps1 ps2 : List (List Int → Option (List Int)))
    (f : List Int → Option (List Int)) (hf : ∀ x, f x = none)
    (seg : List Int)
    {C : Type} (qs1 qs2 : List (VisualPlugin C)) (g : C → Option C)
    (hg : ∀ x, g x = none) (comp : C) :
    apply_audio_plugins (ps1 ++ f :: ps2) seg =
      apply_audio_plugins ps2 (apply_audio_plugins ps1 seg) ∧
    runVisualPlugins (qs1 ++ VisualPlugin.applyStyle g :: qs2) comp =
      runVisualPlugins qs2 (runVisualPlugins qs1 comp) := by
  constructor
  · simp [apply_audio_plugins, List.foldl_append, hf]
  · simp [runVisualPlugins, List.foldl_append, runVisualPlugin, hg]

/-- C9 witness: a concrete three-plugin audio chain and visual chain with
the middle plugin always failing. -/
theorem C9_plugin_failure_continues_witness :
    apply_audio_plugins
        ([fun s => some (s ++ [1])] ++ (fun _ => none) :: [fun s => some (s ++ [2])])
        [0] =
      apply_audio_plugins [fun s => some (s ++ [2])]
        (apply_audio_plugins [fun s => some (s ++ [1])] [0]) ∧
    runVisualPlugins
        ([VisualPlugin.applyStyle (fun n => some (n + 1))] ++
          VisualPlugin.applyStyle (fun _ => none) ::
            [VisualPlugin.applyStyle (fun n => some (n * 3))]) (0 : Nat) =
      runVisualPlugins [VisualPlugin.applyStyle (fun n => some (n * 3))]
        (runVisualPlugins [VisualPlugin.applyStyle (fun n => some (n + 1))] 0) :=
  C9_plugin_failure_continues
    [fun s => some (s ++ [1])] [fun s => some (s ++ [2])] _ (fun _ => rfl) [0]
    [VisualPlugin.applyStyle (fun n => some (n + 1))]
    [VisualPlugin.applyStyle (fun n => some (n * 3))] _ (fun _ => rfl) 0

/-!
## Timeline walk lemmas

`Tiles t sl t'` says the slice list `sl` tiles the cursor interval from
`t` to `t'`: the first slice starts at `t`, each next slice starts where
the previous one ended, and the cursor ends at `t'`.
-/

def Tiles : ℚ → List Slice → ℚ → Prop
  | t, [], t' => t' = t
  | t, s :: rest, t' => s.start = t ∧ Tiles (t + s.duration) rest t'

theorem tiles_append {t t' t'' : ℚ} {a b : List Slice}
    (ha : Tiles t a t') (hb : Tiles t' b t'') : Tiles t (a ++ b) t'' := by
  induction a generalizing t with
  | nil =>
    have h : t' = t := ha
    simpa [h] using hb
  | cons s rest ih => exact ⟨ha.1, ih ha.2⟩

theorem tiles_chain' {t t' : ℚ} {l : List Slice} (h : Tiles t l t') :
    List.Chain' (fun a b => b.start = a.start + a.duration) l := by
  induction l generalizing t with
  | nil => simp
  | cons s rest ih =>
    cases rest with
    | nil => simp
    | cons s2 r2 =>
      refine List.Chain'.cons ?_ (ih h.2)
      rw [h.2.1, h.1]

theorem walkPattern_tiles (rowSeconds total : ℚ) (pidx : Int)
    (rows : List (List String)) (t : ℚ) (ridx : Nat) :
    Tiles t (walkPattern rowSeconds total pidx rows t ridx).1
      (walkPattern rowSeconds total pidx rows t ridx).2 := by
  induction rows generalizing t ridx with
  | nil => simp [walkPattern, Tiles]
  | cons r rs ih =>
    by_cases hts : total ≤ t
    · simp [walkPattern, hts, Tiles]
    · simp only [walkPattern, if_neg hts]
      exact ⟨rfl, ih _ _⟩

theorem walkPattern_duration (rowSeconds total : ℚ) (pidx : Int)
    (rows : List (List String)) (t : ℚ) (ridx : Nat) :
    ∀ s ∈ (walkPattern rowSeconds total pidx rows t ridx).1,
      s.duration = min rowSeconds (total - s.start) := by
  induction rows generalizing t ridx with
  | nil => simp [walkPattern]
  | cons r rs ih =>
    by_cases hts : total ≤ t
    · simp [walkPattern, hts]
    · intro s hs
      simp only [walkPattern, if_neg hts, List.mem_cons] at hs
      rcases hs with rfl | hs
      · rfl
      · exact ih _ _ s hs

theorem walkOrder_tiles (rowSeconds total : ℚ)
    (patterns : List (List (List String))) (order : List Int) (t : ℚ) :
    Tiles t (walkOrder rowSeconds total patterns order t).1
      (walkOrder rowSeconds total patterns order t).2 := by
  induction order generalizing t with
  | nil => simp [walkOrder, Tiles]
  | cons idx rest ih =>
    simp only [walkOrder]
    split
    · split
      · exact walkPattern_tiles rowSeconds total idx _ t 0
      · exact tiles_append (walkPattern_tiles rowSeconds total idx _ t 0) (ih _)
    · exact ih t

theorem walkPattern_start_lt (rowSeconds total : ℚ) (pidx : Int)
    (rows : List (List String)) (t : ℚ) (ridx : Nat) :
    ∀ s ∈ (walkPattern rowSeconds total pidx rows t ridx).1, s.start < total := by
  induction rows generalizing t ridx with
  | nil => simp [walkPattern]
  | cons r rs ih =>
    by_cases hts : total ≤ t
    · simp [walkPattern, hts]
    · intro s hs
      simp only [walkPattern, if_neg hts, List.mem_cons] at hs
      rcases hs with rfl | hs
      · exact lt_of_not_le hts
      · exact ih _ _ s hs

theorem walkOrder_duration (rowSeconds total : ℚ)
    (patterns : List (List (List String))) (order : List Int) (t : ℚ) :
    ∀ s ∈ (walkOrder rowSeconds total patterns order t).1,
      s.duration = min rowSeconds (total - s.start) := by
  induction order generalizing t with
  | nil => simp [walkOrder]
  | cons idx rest ih =>
    intro s hs
    simp only [walkOrder] at hs
    split at hs
    · split at hs
      · exact walkPattern_duration rowSeconds total idx _ t 0 s hs
      · rcases List.mem_append.mp hs with h | h
        · exact walkPattern_duration rowSeconds total idx _ t 0 s h
        · exact ih _ s h
    · exact ih t s hs

theorem walkOrder_start_lt (rowSeconds total : ℚ)
    (patterns : List (List (List String))) (order : List Int) (t : ℚ) :
    ∀ s ∈ (walkOrder rowSeconds total patterns order t).1, s.start < total := by
  induction order generalizing t with
  | nil => simp [walkOrder]
  | cons idx rest ih =>
    intro s hs
    simp only [walkOrder] at hs
    split at hs
    · split at hs
      · exact walkPattern_start_lt rowSeconds total idx _ t 0 s hs
      · rcases List.mem_append.mp hs with h | h
        · exact walkPattern_start_lt rowSeconds total idx _ t 0 s h
        · exact ih _ s h
    · exact ih t s hs

/-- C1: the timeline produced by `render_video_from_module_data` is
contiguous and non-overlapping — each slice starts exactly where the
previous one ended — every slice's duration is
`min(row_seconds, total - start)`, and every non-final slice has the full
nominal row duration, so only the final slice can fall short of it. -/
theorem C1_timeline_contiguous (md : ModuleData) (total rowSeconds : ℚ) :
    List.Chain' (fun a b => b.start = a.start + a.duration)
      (videoTimeline md total rowSeconds) ∧
    (∀ s ∈ videoTimeline md total rowSeconds,
      s.duration = min rowSeconds (total - s.start)) ∧
    ∀ (i : Nat) (hi : i + 1 < (videoTimeline md total rowSeconds).length),
      ((videoTimeline md total rowSeconds).get ⟨i, by omega⟩).duration =
        rowSeconds := by
  have hchain : List.Chain' (fun a b => b.start = a.start + a.duration)
      (videoTimeline md total rowSeconds) :=
    tiles_chain' (walkOrder_tiles rowSeconds total md.patterns (effOrder md) 0)
  have hdur : ∀ s ∈ videoTimeline md total rowSeconds,
      s.duration = min rowSeconds (total - s.start) :=
    walkOrder_duration rowSeconds total md.patterns (effOrder md) 0
  have hlt : ∀ s ∈ videoTimeline md total rowSeconds, s.start < total :=
    walkOrder_start_lt rowSeconds total md.patterns (effOrder md) 0
  refine ⟨hchain, hdur, ?_⟩
  intro i hi
  have hi0 : i < (videoTimeline md total rowSeconds).length := by omega
  have hadj : ((videoTimeline md total rowSeconds).get ⟨i + 1, hi⟩).start =
      ((videoTimeline md total rowSeconds).get ⟨i, hi0⟩).start +
        ((videoTimeline md total rowSeconds).get ⟨i, hi0⟩).duration :=
    (List.chain'_iff_get.mp hchain) i (by omega)
  have hdi := hdur _ (List.get_mem _ _ hi0)
  have hnext := hlt _ (List.get_mem _ _ hi)
  rcases le_total rowSeconds
      (total - ((videoTimeline md total rowSeconds).get ⟨i, hi0⟩).start)
    with hle | hge
  · rw [hdi, min_eq_left hle]
  · have hstop : ((videoTimeline md total rowSeconds).get ⟨i + 1, hi⟩).start =
        total := by
      rw [hadj, hdi, min_eq_right hge]
      ring
    rw [hstop] at hnext
    exact absurd hnext (lt_irrefl total)

/-- Evaluation of the concrete scenario's timeline (shared helper). -/
theorem timeline_mdC_eval :
    videoTimeline mdC (3/4) (1/4) =
      [⟨0, 1/4, 0, 0⟩, ⟨1/4, 1/4, 1, 0⟩, ⟨1/2, 1/4, 0, 0⟩] := by
  norm_num [videoTimeline, walkOrder, walkPattern, effOrder, mdC, pickPattern]

/-- C1 witness: in the concrete three-slice scenario, the middle slice's
duration is `min(row_seconds, total - start)`. -/
theorem C1_timeline_contiguous_witness :
    List.Chain' (fun a b => b.start = a.start + a.duration)
      (videoTimeline mdC (3/4) (1/4)) ∧
    (⟨1/4, 1/4, 1, 0⟩ : Slice).duration =
      min (1/4 : ℚ) (3/4 - (⟨1/4, 1/4, 1, 0⟩ : Slice).start) ∧
    ((videoTimeline mdC (3/4) (1/4)).get
        ⟨0, by rw [timeline_mdC_eval]; simp⟩).duration = 1/4 :=
  ⟨(C1_timeline_contiguous mdC (3/4) (1/4)).1,
   (C1_timeline_contiguous mdC (3/4) (1/4)).2.1 ⟨1/4, 1/4, 1, 0⟩
     (by rw [timeline_mdC_eval]; simp),
   (C1_timeline_contiguous mdC (3/4) (1/4)).2.2 0
     (by rw [timeline_mdC_eval]; simp)⟩

/-- C2: the spec's concrete scenario — `channels = 2`, pattern 0 =
`[["SAMPLE:kick","REST"]]`, pattern 1 = `[["REST","SAMPLE:snare"]]`,
`order = [0,1,0]`, `row_duration_ms = 250` — yields exactly 3 slices at
starts `[0, 1/4, 1/2]` of duration `1/4` each, and an audio render of
exactly 750 ms (whatever the filesystem holds). -/
theorem C2_concrete_scenario :
    videoTimeline mdC (3/4) (1/4) =
      [⟨0, 1/4, 0, 0⟩, ⟨1/4, 1/4, 1, 0⟩, ⟨1/2, 1/4, 0, 0⟩] ∧
    ∀ (fs : FS) (folders : List String),
      (render_audio_from_module_data fs mdC folders 250).length = 750 := by
  constructor
  · exact timeline_mdC_eval
  · intro fs folders
    rw [render_audio_length]
    rfl

/-- C3 counterexample: the sample `kick` is declared with the explicit
file `explicit/kick.wav`, which exists on disk, and the video folder
`vids` holds the matching fuzzy candidate `kick_loop.mp4` — yet the video
render path (lines 152–157 of `video_renderer.py`) resolves to the fuzzy
candidate, not the explicit file, because it never consults the sample
table. -/
theorem C3_video_ignores_explicit_cex :
    lookupSample [("kick", some "explicit/kick.wav")] "kick" =
      some (some "explicit/kick.wav") ∧
    fs1.pathExists "explicit/kick.wav" = true ∧
    videoChannelResolve fs1 ["vids"] "kick" = some "vids/kick_loop.mp4" ∧
    ("vids/kick_loop.mp4" : String) ≠ "explicit/kick.wav" := by
  refine ⟨rfl, rfl, rfl, ?_⟩
  decide

/-- C3 amended: in the audio render path a declared, non-empty, existing
explicit file always wins over any fuzzy candidate; the video render path
ignores the sample table entirely and resolves purely by the fuzzy folder
search (using its result whenever it is a non-empty existing path). -/
theorem C3_explicit_wins_audio_path (fs : FS)
    (samples : List (String × Option String)) (folders : List String)
    (name p : String)
    (hdecl : lookupSample samples name = some (some p)) (hp : p ≠ "")
    (hex : fs.pathExists p = true) :
    audioResolve fs samples folders name = some p ∧
    ∀ (fs' : FS) (folders' : List String) (nm vf : String),
      find_video_for_sample fs' nm folders' = some vf → vf ≠ "" →
      fs'.pathExists vf = true →
      videoChannelResolve fs' folders' nm = some vf := by
  constructor
  · unfold audioResolve
    rw [hdecl]
    simp [hp, hex]
  · intro fs' folders' nm vf hfind hvf hex'
    unfold videoChannelResolve
    rw [hfind]
    simp [hvf, hex']

/-- C3 amended-claim witness: the concrete environment of the
counterexample, on the audio side and the video side. -/
theorem C3_explicit_wins_audio_path_witness :
    audioResolve fs1 [("kick", some "explicit/kick.wav")] ["vids"] "kick" =
      some "explicit/kick.wav" ∧
    videoChannelResolve fs1 ["vids"] "kick" = some "vids/kick_loop.mp4" :=
  have h := C3_explicit_wins_audio_path fs1
    [("kick", some "explicit/kick.wav")] ["vids"] "kick" "explicit/kick.wav"
    rfl (by decide) rfl
  ⟨h.1, h.2 fs1 ["vids"] "kick" "vids/kick_loop.mp4" rfl (by decide) rfl⟩

/-- C4 counterexample: the sample `kick` is declared with the explicit
file `missing/kick.wav`, which does not exist, while the audio folder
`aud` holds the matching entry `kick.wav` — the fuzzy search would find
it, but audio-path resolution returns nothing, because the fuzzy search
runs only when the explicit file is unset (`if not file_path`), not when
it is set but missing. -/
theorem C4_missing_explicit_no_fallback_cex :
    lookupSample [("kick", some "missing/kick.wav")] "kick" =
      some (some "missing/kick.wav") ∧
    fs2.pathExists "missing/kick.wav" = false ∧
    find_audio_for_sample fs2 "kick" ["aud"] = some "aud/kick.wav" ∧
    audioResolve fs2 [("kick", some "missing/kick.wav")] ["aud"] "kick" =
      none :=
  ⟨rfl, rfl, rfl, rfl⟩

/-- C4 amended: whenever the declared explicit file is set and non-empty,
the audio render path never consults the fuzzy folder search: resolution
is the explicit file if it exists, and nothing (silence) otherwise. -/
theorem C4_explicit_set_skips_fuzzy (fs : FS)
    (samples : List (String × Option String)) (folders : List String)
    (name p : String)
    (hdecl : lookupSample samples name = some (some p)) (hp : p ≠ "") :
    audioResolve fs samples folders name =
      (if fs.pathExists p then some p else none) := by
  unfold audioResolve
  rw [hdecl]
  simp [hp]

/-- C4 amended-claim witness: the counterexample environment, where the
set-but-missing explicit file yields `none` despite a fuzzy candidate. -/
theorem C4_explicit_set_skips_fuzzy_witness :
    audioResolve fs2 [("kick", some "missing/kick.wav")] ["aud"] "kick" =
      (if fs2.pathExists "missing/kick.wav" then some "missing/kick.wav"
        else none) :=
  C4_explicit_set_skips_fuzzy fs2 [("kick", some "missing/kick.wav")]
    ["aud"] "kick" "missing/kick.wav" rfl (by decide)

/-!
## Fuzzy search as a first-match over the scan sequence (for C5)
-/

/-- The scan sequence of the fuzzy search: folders in list order, each
existing folder's entries in listing order, paired with their folder. -/
def scanList (fs : FS) (folders : List String) : List (String × String) :=
  folders.flatMap (fun folder =>
    if fs.isdir folder then (fs.listdir folder).map (fun e => (folder, e))
    else [])

/-- The spec's wording of fuzzy resolution, for the refinement comparison
with `findInFolders`: return the first scanned entry (folders in order,
entries in listing order) whose lowercased extension is in the kind's set
and whose lowercased stem equals / starts with / contains the lowercased
name — with no special case for the empty name. -/
def findFirstMatch (fs : FS) (name : String) (folders : List String)
    (exts : List String) : Option String :=
  ((scanList fs folders).find? (fun fe => matchEntry (pyLower name) exts fe.2)).map
    (fun fe => pyJoin fe.1 fe.2)

theorem findLoop_eq_first_match (fs : FS) (base : String)
    (exts : List String) (folders : List String) :
    findLoop fs base exts folders =
      ((scanList fs folders).find? (fun fe => matchEntry base exts fe.2)).map
        (fun fe => pyJoin fe.1 fe.2) := by
  induction folders with
  | nil => rfl
  | cons folder rest ih =>
    simp only [findLoop, scanList, List.flatMap_cons, List.find?_append]
    by_cases hd : fs.isdir folder
    · simp only [hd, if_true, List.find?_map]
      cases hfind : (fs.listdir folder).find? (matchEntry base exts) with
      | none =>
        have hcomp :
            (fs.listdir folder).find?
              ((fun fe : String × String => matchEntry base exts fe.2) ∘
                (fun e => (folder, e))) = none := hfind
        rw [hcomp]
        simpa [scanList] using ih
      | some fname =>
        have hcomp :
            (fs.listdir folder).find?
              ((fun fe : String × String => matchEntry base exts fe.2) ∘
                (fun e => (folder, e))) = some fname := hfind
        rw [hcomp]
        rfl
    · simp only [hd, if_false]
      simpa [scanList] using ih

/-- C5 counterexample: for the empty sample name, the folder entry
`kick.wav` matches the spec's criterion (every stem starts with the empty
string), so the claim's "first matching entry" prediction
(`findFirstMatch`) returns it — but `_find_in_folders` returns `None`
unconditionally for an empty name (`if not name: return None`). -/
theorem C5_empty_name_cex :
    findFirstMatch fs2 "" ["aud"] AUDIO_EXTS = some "aud/kick.wav" ∧
    find_audio_for_sample fs2 "" ["aud"] = none :=
  ⟨rfl, rfl⟩

/-- C5 amended: for every NON-EMPTY name, fuzzy resolution returns exactly
the first entry of the folder/listing scan whose extension and stem match
(`findFirstMatch`), and `none` when nothing matches (an empty name returns
`none` without scanning); no error is raised anywhere (the functions are
total), and when audio resolution yields nothing the caller substitutes
silence of the row duration. -/
theorem C5_fuzzy_first_match (fs : FS) (name : String)
    (folders : List String) (exts : List String) :
    (name ≠ "" →
      findInFolders fs name folders exts = findFirstMatch fs name folders exts) ∧
    (∀ (samples : List (String × Option String)) (rowMs : Nat) (tok : String),
      audioResolve fs samples folders (afterFirstColon tok) = none →
      channelSegment fs samples folders rowMs tok = silent rowMs) := by
  constructor
  · intro hname
    unfold findInFolders findFirstMatch
    rw [if_neg hname]
    exact findLoop_eq_first_match fs (pyLower name) exts folders
  · intro samples rowMs tok hres
    unfold channelSegment
    split
    · rw [hres]
    · rfl

/-- C5 amended-claim witness: the non-empty name `kick` on the concrete
filesystem, and filler substitution for an unresolvable sample token. -/
theorem C5_fuzzy_first_match_witness :
    findInFolders fs2 "kick" ["aud"] AUDIO_EXTS =
      findFirstMatch fs2 "kick" ["aud"] AUDIO_EXTS ∧
    channelSegment fs0 [] [] 250 "SAMPLE:zzz" = silent 250 :=
  ⟨(C5_fuzzy_first_match fs2 "kick" ["aud"] AUDIO_EXTS).1 (by decide),
   (C5_fuzzy_first_match fs0 "kick" [] AUDIO_EXTS).2 [] 250 "SAMPLE:zzz" rfl⟩

/-!
## Effective order lemmas (for C8)
-/

theorem pickPattern_cons_succ (p : List (List String))
    (ps : List (List (List String))) (i : Nat) :
    pickPattern (p :: ps) (Int.ofNat (i + 1)) = pickPattern ps (Int.ofNat i) := by
  unfold pickPattern
  by_cases h : i < ps.length
  · have h1 : (0 : Int) ≤ Int.ofNat (i + 1) ∧
        (Int.ofNat (i + 1)).toNat < (p :: ps).length := by
      rw [Int.ofNat_eq_coe, List.length_cons]
      constructor <;> omega
    have h2 : (0 : Int) ≤ Int.ofNat i ∧ (Int.ofNat i).toNat < ps.length := by
      rw [Int.ofNat_eq_coe]
      constructor <;> omega
    rw [dif_pos h1, dif_pos h2]
    rfl
  · have h1 : ¬ ((0 : Int) ≤ Int.ofNat (i + 1) ∧
        (Int.ofNat (i + 1)).toNat < (p :: ps).length) := by
      rw [Int.ofNat_eq_coe, List.length_cons]
      rintro ⟨-, hlt⟩
      omega
    have h2 : ¬ ((0 : Int) ≤ Int.ofNat i ∧ (Int.ofNat i).toNat < ps.length) := by
      rw [Int.ofNat_eq_coe]
      rintro ⟨-, hlt⟩
      omega
    rw [dif_neg h1, dif_neg h2]

theorem flatMap_after_map {α β γ : Type} (f : α → β) (g : β → List γ)
    (l : List α) :
    (l.map f).flatMap g = l.flatMap (fun a => g (f a)) := by
  induction l with
  | nil => rfl
  | cons a t ih => simp only [List.map_cons, List.flatMap_cons, ih]

theorem range_pick (patterns : List (List (List String))) :
    ((List.range patterns.length).map Int.ofNat).flatMap
        (pickPattern patterns) =
      patterns.flatten := by
  induction patterns with
  | nil => rfl
  | cons p ps ih =>
    rw [flatMap_after_map] at ih ⊢
    rw [List.length_cons, List.range_succ_eq_map, List.flatMap_cons]
    have h0 : pickPattern (p :: ps) (Int.ofNat 0) = p := by
      rw [pickPattern, dif_pos]
      · rfl
      · refine ⟨by decide, ?_⟩
        show 0 < ps.length + 1
        omega
    rw [h0, flatMap_after_map]
    have htail :
        (List.range ps.length).flatMap
            (fun i => pickPattern (p :: ps) (Int.ofNat (Nat.succ i))) =
          (List.range ps.length).flatMap (fun i => pickPattern ps (Int.ofNat i)) := by
      simp only [Nat.succ_eq_add_one, pickPattern_cons_succ]
    rw [htail, ih, List.flatten_cons]

/-- C8 counterexample: a module with one non-empty pattern but a present,
empty `order` renders nothing — the renderers' `.get("order", default)`
fires only when the key is absent, so an explicitly empty order is used
as-is and the pattern list is never entered. -/
theorem C8_empty_order_cex :
    mdE.patterns ≠ [] ∧ effOrder mdE = [] ∧ walkedRows mdE = [] ∧
    render_audio_from_module_data fs0 mdE [] 250 = [] :=
  ⟨by decide, rfl, rfl, rfl⟩

/-- C8 amended: the render walk uses `module.order` as-is whenever the
key is present — even when it is empty, in which case nothing is rendered;
only an ABSENT order defaults to `[0..len(patterns))`, in which case all
patterns are visited once in index order.  (The text parser substitutes
the default for an empty order at parse time, so parser-produced module
data never exercises the empty-order case.) -/
theorem C8_order_semantics (md : ModuleData) :
    (∀ o, md.order = some o → effOrder md = o) ∧
    (md.order = none →
      effOrder md = (List.range md.patterns.length).map Int.ofNat ∧
      walkedRows md = md.patterns.flatten) := by
  constructor
  · intro o ho
    simp [effOrder, ho]
  · intro ho
    have he : effOrder md =
        (List.range md.patterns.length).map Int.ofNat := by
      simp [effOrder, ho]
    exact ⟨he, by rw [walkedRows, he]; exact range_pick md.patterns⟩

/-- C8 amended-claim witness: a present order `[0,1,0]` is used as-is, and
the order-absent module `mdD` walks all its patterns in index order. -/
theorem C8_order_semantics_witness :
    effOrder mdC = [0, 1, 0] ∧ walkedRows mdD = mdD.patterns.flatten :=
  ⟨(C8_order_semantics mdC).1 [0, 1, 0] rfl, ((C8_order_semantics mdD).2 rfl).2⟩
